import Mathlib

/-!
Shallow embedding of the scop wavefront-OBJ pipeline:
the line parser (`src/wavefront.rs`), the fan triangulator and vertex
deduplicator (`src/renderer/mesh.rs`), the bounding-box calculation
(`src/renderer/mesh.rs`, `src/renderer/math/boundingbox.rs`) and the
vector utility (`src/renderer/math/vec.rs`).

Numeric model: Rust `f32` is embedded as the type `F` below — a rational
number, NaN, or a signed infinity.  Arithmetic on finite values is exact
rational arithmetic (no rounding, overflow or underflow is modelled); NaN
and infinity propagation follows IEEE-754, which is what the embedded
control flow observes (the `!=` test in `normalize`, the NaN produced by
`0.0 / 0.0`, the NaN-ignoring `f32::min`/`f32::max`).  Square root is
exact on perfect squares and otherwise returns a positive finite
stand-in; the embedded program never observes the magnitude of a nonzero
square root, only whether it is zero.
-/

section
attribute [local semireducible] Rat.mul Rat.add Rat.sub Rat.inv

/-- Embedding of Rust `f32`: finite values are exact rationals. -/
inductive F where
  | nan : F
  | inf : Bool → F
  | fin : ℚ → F
deriving DecidableEq, Repr

/-- IEEE addition on the `F` model (finite part exact). -/
def F.add : F → F → F
  | .nan, _ => .nan
  | _, .nan => .nan
  | .inf s, .inf t => if s = t then .inf s else .nan
  | .inf s, .fin _ => .inf s
  | .fin _, .inf t => .inf t
  | .fin a, .fin b => .fin (a + b)

/-- IEEE multiplication on the `F` model (finite part exact). -/
def F.mul : F → F → F
  | .nan, _ => .nan
  | _, .nan => .nan
  | .inf s, .inf t => .inf (s = t)
  | .inf s, .fin b => if b = 0 then .nan else .inf (s = decide (0 < b))
  | .fin a, .inf t => if a = 0 then .nan else .inf (t = decide (0 < a))
  | .fin a, .fin b => .fin (a * b)

/-- IEEE division on the `F` model; `0/0` is NaN, `x/0` is a signed
infinity for `x ≠ 0` (finite part exact). -/
def F.div : F → F → F
  | .nan, _ => .nan
  | _, .nan => .nan
  | .inf _, .inf _ => .nan
  | .inf s, .fin b => .inf (s = decide (0 ≤ b))
  | .fin _, .inf _ => .fin 0
  | .fin a, .fin b =>
      if b = 0 then (if a = 0 then .nan else .inf (decide (0 < a))) else .fin (a / b)

/-- IEEE equality (`==`/`!=` on `f32`): NaN compares unequal to
everything, including itself. -/
def F.beq : F → F → Bool
  | .nan, _ => false
  | _, .nan => false
  | .inf s, .inf t => s = t
  | .fin a, .fin b => a = b
  | .inf _, .fin _ => false
  | .fin _, .inf _ => false

/-- Rust `f32::min`: NaN-ignoring minimum. -/
def F.fmin : F → F → F
  | .nan, b => b
  | a, .nan => a
  | .inf s, .inf t => .inf (s && t)
  | .inf s, .fin b => if s then .fin b else .inf false
  | .fin a, .inf t => if t then .fin a else .inf false
  | .fin a, .fin b => .fin (min a b)

/-- Rust `f32::max`: NaN-ignoring maximum. -/
def F.fmax : F → F → F
  | .nan, b => b
  | a, .nan => a
  | .inf s, .inf t => .inf (s || t)
  | .inf s, .fin b => if s then .inf true else .fin b
  | .fin a, .inf t => if t then .inf true else .fin a
  | .fin a, .fin b => .fin (max a b)

/-- Largest `k ≤ fuel` reachable from `k0` with `k * k ≤ n`; structural
recursion on `fuel` so the kernel can evaluate it. -/
def sqrtAux (n : Nat) : Nat → Nat → Nat
  | 0, k => k
  | fuel + 1, k => if (k + 1) * (k + 1) ≤ n then sqrtAux n fuel (k + 1) else k

/-- Integer square root (floor), kernel-computable. -/
def natSqrt (n : Nat) : Nat :=
  sqrtAux n n 0

/-- Exact square root on perfect squares; for other positive rationals a
positive finite stand-in (the embedded code never observes the magnitude
of a nonzero square root, only whether it is zero or NaN). -/
def ratSqrt (q : ℚ) : ℚ :=
  let n := natSqrt q.num.toNat
  let d := natSqrt q.den
  if n * n = q.num.toNat ∧ d * d = q.den then mkRat (Int.ofNat n) d else q

/-- IEEE square root on the `F` model: NaN on negative input,
`sqrt 0 = 0`, positive on positive input. -/
def F.sqrt : F → F
  | .nan => .nan
  | .inf s => if s then .inf true else .nan
  | .fin q => if q < 0 then .nan else .fin (ratSqrt q)

/-- Embedding of `Vec3` (`src/renderer/math/vec.rs`); the tuple fields
`.0/.1/.2` are named `x/y/z`. -/
structure Vec3 where
  x : F
  y : F
  z : F
deriving DecidableEq, Repr

/-- Embedding of `Vec4` (`src/renderer/math/vec.rs`). -/
structure Vec4 where
  x : F
  y : F
  z : F
  w : F
deriving DecidableEq, Repr

/-- `Vec3::length`: `(x*x + y*y + z*z).sqrt()`. -/
def Vec3.length (v : Vec3) : F :=
  (((v.x.mul v.x).add (v.y.mul v.y)).add (v.z.mul v.z)).sqrt

/-- `Vec3::normalize` (`src/renderer/math/vec.rs:23-31`): returns the
input unchanged when `length != 0.0`, otherwise divides every component
by the (zero) length. -/
def Vec3.normalize (v : Vec3) : Vec3 :=
  let length := v.length
  if (length.beq (F.fin 0)) = false then v
  else ⟨v.x.div length, v.y.div length, v.z.div length⟩

/-!
String helpers.  The Rust code works on `&str`; the embedding works on
`List Char` with the same splitting semantics (`str::lines`,
`str::trim`, `str::split_whitespace`, `str::split("/")`).
-/

/-- Unicode `White_Space` (Rust `char::is_whitespace`). -/
def isWsChar (c : Char) : Bool :=
  c.toNat ∈ [0x9, 0xA, 0xB, 0xC, 0xD, 0x20, 0x85, 0xA0, 0x1680,
    0x2000, 0x2001, 0x2002, 0x2003, 0x2004, 0x2005, 0x2006, 0x2007,
    0x2008, 0x2009, 0x200A, 0x2028, 0x2029, 0x202F, 0x205F, 0x3000]

/-- Rust `str::trim`: strip leading and trailing whitespace. -/
def trimChars (cs : List Char) : List Char :=
  ((cs.dropWhile isWsChar).reverse.dropWhile isWsChar).reverse

/-- Helper for `splitWs`; `acc` holds the current token reversed. -/
def splitWsAux : List Char → List Char → List (List Char)
  | [], acc => if acc = [] then [] else [acc.reverse]
  | c :: rest, acc =>
    if isWsChar c then
      if acc = [] then splitWsAux rest [] else acc.reverse :: splitWsAux rest []
    else splitWsAux rest (c :: acc)

/-- Rust `str::split_whitespace`: whitespace-separated tokens, no empty
tokens. -/
def splitWs (cs : List Char) : List (List Char) :=
  splitWsAux cs []

/-- Helper for `splitOnChar`; `acc` holds the current piece reversed. -/
def splitOnCharAux (sep : Char) : List Char → List Char → List (List Char)
  | [], acc => [acc.reverse]
  | c :: rest, acc =>
    if c = sep then acc.reverse :: splitOnCharAux sep rest []
    else splitOnCharAux sep rest (c :: acc)

/-- Rust `str::split(sep)` for a one-character separator: always at
least one (possibly empty) piece. -/
def splitOnChar (sep : Char) (cs : List Char) : List (List Char) :=
  splitOnCharAux sep cs []

/-- Rust `str::lines`: split on `'\n'`, drop a final empty piece (text
ending in a newline), strip one trailing `'\r'` per line. -/
def rustLines (cs : List Char) : List (List Char) :=
  let parts := splitOnChar '\n' cs
  let parts := if parts.getLast? = some [] then parts.dropLast else parts
  parts.map (fun l => if l.getLast? = some '\r' then l.dropLast else l)

/-- Numeric value of a digit string (most significant first). -/
def digitsToNat (ds : List Char) : Nat :=
  ds.foldl (fun a c => a * 10 + (c.toNat - 48)) 0

/-- Rust `str::parse::<u32>()`: optional `+` sign, one or more ASCII
digits, value below `2^32`; anything else fails. -/
def parseU32 (cs : List Char) : Option Nat :=
  let t := match cs with
    | '+' :: rest => rest
    | _ => cs
  if t = [] then none
  else if t.all Char.isDigit then
    let n := digitsToNat t
    if n < 2 ^ 32 then some n else none
  else none

/-- Exponent part of a float literal: empty, or `[eE][+-]?digits`
consuming the rest of the input. -/
def parseExpPart (base : ℚ) : List Char → Option ℚ
  | [] => some base
  | c :: rest =>
    if c = 'e' ∨ c = 'E' then
      let eneg : Bool := match rest with
        | '-' :: _ => true
        | _ => false
      let rest2 := match rest with
        | '-' :: r => r
        | '+' :: r => r
        | _ => rest
      let ds := rest2.takeWhile Char.isDigit
      let tail := rest2.dropWhile Char.isDigit
      if ds = [] ∨ tail ≠ [] then none
      else some (if eneg then base / (10 : ℚ) ^ digitsToNat ds
                 else base * (10 : ℚ) ^ digitsToNat ds)
    else none

/-- Unsigned decimal mantissa `digits[.digits][exp]` with at least one
digit, consuming the whole input. -/
def parseDecMantissa (t : List Char) : Option ℚ :=
  let ip := t.takeWhile Char.isDigit
  let rest := t.dropWhile Char.isDigit
  match rest with
  | '.' :: rest2 =>
    let fp := rest2.takeWhile Char.isDigit
    let rest3 := rest2.dropWhile Char.isDigit
    if ip = [] ∧ fp = [] then none
    else parseExpPart ((digitsToNat ip : ℚ) + (digitsToNat fp : ℚ) / (10 : ℚ) ^ fp.length) rest3
  | _ => if ip = [] then none else parseExpPart (digitsToNat ip : ℚ) rest

/-- Rust `str::parse::<f32>()`: optional sign, then `inf`/`infinity`/
`nan` (case-insensitive) or a decimal mantissa with optional exponent.
Finite values are kept exact (no rounding to binary32). -/
def parseF32 (cs : List Char) : Option F :=
  let neg : Bool := match cs with
    | '-' :: _ => true
    | _ => false
  let t := match cs with
    | '-' :: rest => rest
    | '+' :: rest => rest
    | _ => cs
  let low := t.map Char.toLower
  if low = ['i', 'n', 'f'] ∨ low = ['i', 'n', 'f', 'i', 'n', 'i', 't', 'y'] then
    some (F.inf (!neg))
  else if low = ['n', 'a', 'n'] then some F.nan
  else (parseDecMantissa t).map (fun q => F.fin (if neg then -q else q))

/-!
Error taxonomy and document model of `src/wavefront.rs`.  Payloads of
`ParseFloatError`/`ParseIntError` (and of the IO error constructors,
which `from_string` never produces) are not inspected by any caller and
are dropped.
-/

deriving instance DecidableEq for Except

/-- `WavefrontObjParseErrorDetail` (`src/wavefront.rs:9-21`). -/
inductive WavefrontObjParseErrorDetail where
  | UnknownCommand : String → WavefrontObjParseErrorDetail
  | InvalidOperandCount : Option Nat × Option Nat → Nat → WavefrontObjParseErrorDetail
  | VertexParseFloatError : WavefrontObjParseErrorDetail
  | UVParseFloatError : WavefrontObjParseErrorDetail
  | NormalParseFloatError : WavefrontObjParseErrorDetail
  | FaceParseIntError : WavefrontObjParseErrorDetail
  | InvalidFaceOperand : Nat → WavefrontObjParseErrorDetail
deriving DecidableEq, Repr

/-- `WavefrontObjError` (`src/wavefront.rs:23-32`); the `ParseError`
fields are file label, 1-indexed line, detail. -/
inductive WavefrontObjError where
  | IoError : WavefrontObjError
  | PathError : WavefrontObjError
  | ParseError : Option String → Nat → WavefrontObjParseErrorDetail → WavefrontObjError
deriving DecidableEq, Repr

/-- `FaceAttribute` (`src/wavefront.rs:46-51`); the `u32` indices are
naturals below `2^32` (guaranteed by `parseU32`). -/
structure FaceAttribute where
  position_index : Nat
  texture_coordinate_index : Option Nat
  normal_index : Option Nat
deriving DecidableEq, Repr

/-- `Face` (`src/wavefront.rs:53-56`). -/
structure Face where
  attributes : List FaceAttribute
deriving DecidableEq, Repr

/-- `Obj` (`src/wavefront.rs:64-70`). -/
structure Obj where
  positions : List Vec4
  uvs : List Vec3
  normals : List Vec3
  faces : List Face
deriving DecidableEq, Repr

/-- `usize::MAX` on the 64-bit targets the renderer builds for. -/
def USIZE_MAX : Nat := 2 ^ 64 - 1

/-- `Obj::check_operand_length` (`src/wavefront.rs:91-109`): a `max` of
`0` encodes "unbounded" and is replaced by `usize::MAX` before the range
test, so the reported upper bound is `some usize::MAX`, never `none`. -/
def check_operand_length (min max val : Nat) : Option WavefrontObjParseErrorDetail :=
  let max := if max = 0 then USIZE_MAX else max
  if val < min ∨ val > max then
    some (.InvalidOperandCount
      (if min = 0 then none else some min, if max = 0 then none else some max) val)
  else none

/-- `Obj::parse_floats_from_line` (`src/wavefront.rs:111-119`): parse
every operand as `f32`, failing on the first bad operand. -/
def parse_floats_from_line : List (List Char) → Option (List F)
  | [] => some []
  | operand :: rest =>
    match parseF32 operand with
    | none => none
    | some f => (parse_floats_from_line rest).map (f :: ·)

/-- One operand of a face line (`src/wavefront.rs:124-155`): split on
`/`; sub-field 0 is the position index, empty sub-fields 1/2 are `none`,
present ones must parse as `u32`.  Extra sub-fields are ignored. -/
def parse_face_operand (operand : List Char) : Option FaceAttribute :=
  let parts := splitOnChar '/' operand
  match parts with
  | [] => none
  | p0 :: restParts =>
    (parseU32 p0).bind fun pi =>
    (match restParts.get? 0 with
     | none => some none
     | some s => if s = [] then some none else (parseU32 s).map some).bind fun uv =>
    (match restParts.get? 1 with
     | none => some none
     | some s => if s = [] then some none else (parseU32 s).map some).map fun ni =>
    ⟨pi, uv, ni⟩

/-- `Obj::parse_face_from_line` (`src/wavefront.rs:121-159`). -/
def parse_face_from_line : List (List Char) → Option (List FaceAttribute)
  | [] => some []
  | operand :: rest =>
    match parse_face_operand operand with
    | none => none
    | some a => (parse_face_from_line rest).map (a :: ·)

/-- `Obj::parse_error` (`src/wavefront.rs:161-171`): attaches the file
label and converts the 0-based line index to 1-based. -/
def parse_error (file_name : Option String) (line : Nat)
    (detail : WavefrontObjParseErrorDetail) : WavefrontObjError :=
  .ParseError file_name (line + 1) detail

/-- `Obj::handle_positions_line` (`src/wavefront.rs:173-201`). -/
def handle_positions_line (file_name : Option String) (line : Nat)
    (operands : List (List Char)) (positions : List Vec4) :
    Except WavefrontObjError (List Vec4) :=
  match check_operand_length 3 4 operands.length with
  | some detail => .error (parse_error file_name line detail)
  | none =>
    match parse_floats_from_line operands with
    | none => .error (parse_error file_name line .VertexParseFloatError)
    | some coordinates =>
      let x := coordinates.getD 0 (F.fin 0)
      let y := coordinates.getD 1 (F.fin 0)
      let z := coordinates.getD 2 (F.fin 0)
      let w := coordinates.getD 3 (F.fin 1)
      .ok (positions ++ [⟨x, y, z, w⟩])

/-- `Obj::handle_face_line` (`src/wavefront.rs:203-240`): operand count
`≥ 3` (unbounded above), then integer parsing, then the zero-position
check `positions.contains(&0)`. -/
def handle_face_line (file_name : Option String) (line : Nat)
    (operands : List (List Char)) (faces : List Face) :
    Except WavefrontObjError (List Face) :=
  match check_operand_length 3 0 operands.length with
  | some detail => .error (parse_error file_name line detail)
  | none =>
    match parse_face_from_line operands with
    | none => .error (parse_error file_name line .FaceParseIntError)
    | some face_data =>
      if (face_data.map (·.position_index)).contains 0 then
        .error (parse_error file_name line (.InvalidFaceOperand 0))
      else .ok (faces ++ [⟨face_data⟩])

/-- `Obj::handle_uv_line` (`src/wavefront.rs:242-270`). -/
def handle_uv_line (file_name : Option String) (line : Nat)
    (operands : List (List Char)) (uvs : List Vec3) :
    Except WavefrontObjError (List Vec3) :=
  match check_operand_length 1 3 operands.length with
  | some detail => .error (parse_error file_name line detail)
  | none =>
    match parse_floats_from_line operands with
    | none => .error (parse_error file_name line .UVParseFloatError)
    | some uv_floats =>
      let u := uv_floats.getD 0 (F.fin 0)
      let v := uv_floats.getD 1 (F.fin 0)
      let w := uv_floats.getD 2 (F.fin 0)
      .ok (uvs ++ [⟨u, v, w⟩])

/-- `Obj::handle_normal_line` (`src/wavefront.rs:272-300`). -/
def handle_normal_line (file_name : Option String) (line : Nat)
    (operands : List (List Char)) (normals : List Vec3) :
    Except WavefrontObjError (List Vec3) :=
  match check_operand_length 3 3 operands.length with
  | some detail => .error (parse_error file_name line detail)
  | none =>
    match parse_floats_from_line operands with
    | none => .error (parse_error file_name line .NormalParseFloatError)
    | some normal_floats =>
      let x := normal_floats.getD 0 (F.fin 0)
      let y := normal_floats.getD 1 (F.fin 0)
      let z := normal_floats.getD 2 (F.fin 0)
      .ok (normals ++ [⟨x, y, z⟩])

/-- One iteration of the `from_string` loop (`src/wavefront.rs:311-358`):
trim, skip blank and `#` lines, split on whitespace, dispatch on the
leading token.  A trimmed nonempty line always yields at least one
token, so the `[]` arm is unreachable. -/
def processLine (file_name : Option String) (st : Obj) (i : Nat)
    (rawLine : List Char) : Except WavefrontObjError Obj :=
  let line := trimChars rawLine
  if line.length = 0 ∨ line.head? = some '#' then .ok st
  else
    match splitWs line with
    | [] => .ok st
    | cmd :: operands =>
      match String.mk cmd with
      | "v" => (handle_positions_line file_name i operands st.positions).map
          (fun ps => { st with positions := ps })
      | "f" => (handle_face_line file_name i operands st.faces).map
          (fun fs => { st with faces := fs })
      | "mtllib" => .ok st
      | "usemtl" => .ok st
      | "s" => .ok st
      | "g" => .ok st
      | "o" => .ok st
      | "vt" => (handle_uv_line file_name i operands st.uvs).map
          (fun us => { st with uvs := us })
      | "vn" => (handle_normal_line file_name i operands st.normals).map
          (fun ns => { st with normals := ns })
      | other => .error (parse_error file_name i (.UnknownCommand other))

/-- The `from_string` loop over the enumerated lines, starting at line
index `i`; aborts on the first error (the `?` operator). -/
def runLines (file_name : Option String) : Obj → Nat → List (List Char) →
    Except WavefrontObjError Obj
  | st, _, [] => .ok st
  | st, i, l :: rest =>
    match processLine file_name st i l with
    | .ok st1 => runLines file_name st1 (i + 1) rest
    | .error e => .error e

/-- `Obj::from_string` (`src/wavefront.rs:302-366`). -/
def from_string (data : String) (file_name : Option String) :
    Except WavefrontObjError Obj :=
  runLines file_name ⟨[], [], [], []⟩ 0 (rustLines data.toList)

/-!
Conversion stage of `src/renderer/mesh.rs`: fan triangulation, vertex
deduplication into `MeshData`, and the bounding box.  Rust's panicking
array indexing (`obj.positions[i]`, including the `index - 1` underflow
when an index is `0`) is modelled by `Option`: `none` is a panic.
-/

/-- `MeshData` (`src/renderer/mesh.rs:20-26`); flat `f32` arrays and a
`u32` index list. -/
structure MeshData where
  positions : List F
  normals : List F
  colors : List F
  uvs : List F
  indices : List Nat
deriving DecidableEq, Repr

/-- `triangulate` (`src/renderer/mesh.rs:208-257`): fan triangulation
anchored at attribute 0; the loop runs `i` over `1..(len - 1)`.  The
unused `_positions` parameter is kept from the source signature.  (For
an empty attribute list the Rust `len - 1` would underflow and panic;
that case is unreachable, faces always have at least 3 attributes.) -/
def triangulate (attributes : List FaceAttribute) (_positions : List Vec4) :
    List (FaceAttribute × FaceAttribute × FaceAttribute) :=
  (List.range' 1 (attributes.length - 1 - 1)).map fun i =>
    (attributes.getD 0 ⟨0, none, none⟩,
     attributes.getD i ⟨0, none, none⟩,
     attributes.getD (i + 1) ⟨0, none, none⟩)

/-- Accumulator of the `From<wavefront::Obj> for MeshData` loop
(`src/renderer/mesh.rs:259-319`); `processed` is the
`HashMap<FaceAttribute, usize>` as an association list (newest entry
first; keys are inserted at most once). -/
structure ConvState where
  positions : List F
  uvs : List F
  normals : List F
  indices : List Nat
  processed : List (FaceAttribute × Nat)
deriving DecidableEq, Repr

/-- `HashMap::get` on the association list. -/
def assocFind (m : List (FaceAttribute × Nat)) (a : FaceAttribute) : Option Nat :=
  match m with
  | [] => none
  | (k, v) :: rest => if k = a then some v else assocFind rest a

/-- Rust 1-based array access `arr[i as usize - 1]`: `i = 0` underflows
and panics, an index past the end panics; both are `none`. -/
def arrIndex (arr : List α) (i : Nat) : Option α :=
  if i = 0 then none else arr.get? (i - 1)

/-- Body of the innermost loop of `From<wavefront::Obj> for MeshData`
(`src/renderer/mesh.rs:272-307`): reuse the index of an already-seen
attribute, otherwise resolve position/normal/uv (with the
`Vec3(0.0, 0.0, 0.0)` fallbacks, the normal being passed through
`normalize`), append them, and record the next sequential index. -/
def processAttribute (obj : Obj) (st : ConvState) (attr : FaceAttribute) :
    Option ConvState :=
  match assocFind st.processed attr with
  | some index => some { st with indices := st.indices ++ [index % 2 ^ 32] }
  | none =>
    match arrIndex obj.positions attr.position_index with
    | none => none
    | some position =>
      match (match attr.normal_index with
             | some index => arrIndex obj.normals index
             | none => some ⟨F.fin 0, F.fin 0, F.fin 0⟩) with
      | none => none
      | some rawNormal =>
        let normal := rawNormal.normalize
        match (match attr.texture_coordinate_index with
               | some index => arrIndex obj.uvs index
               | none => some ⟨F.fin 0, F.fin 0, F.fin 0⟩) with
        | none => none
        | some uv =>
          let index := st.processed.length
          some { positions := st.positions ++ [position.x, position.y, position.z],
                 normals := st.normals ++ [normal.x, normal.y, normal.z],
                 uvs := st.uvs ++ [uv.x, uv.y],
                 indices := st.indices ++ [index % 2 ^ 32],
                 processed := (attr, index) :: st.processed }

/-- The three attributes of one triangle, processed in order. -/
def processTriangle (obj : Obj) (st : ConvState)
    (t : FaceAttribute × FaceAttribute × FaceAttribute) : Option ConvState :=
  (processAttribute obj st t.1).bind fun st1 =>
  (processAttribute obj st1 t.2.1).bind fun st2 =>
  processAttribute obj st2 t.2.2

/-- One face of the outer loop: triangulate, then process each triangle. -/
def processFace (obj : Obj) (st : ConvState) (face : Face) : Option ConvState :=
  (triangulate face.attributes obj.positions).foldlM (processTriangle obj) st

/-- `From<wavefront::Obj> for MeshData` (`src/renderer/mesh.rs:259-319`);
`none` models a panic from an out-of-range attribute index. -/
def mesh_data_from_obj (obj : Obj) : Option MeshData :=
  (obj.faces.foldlM (processFace obj) ⟨[], [], [], [], []⟩).map fun st =>
    { positions := st.positions, indices := st.indices, colors := [],
      normals := st.normals, uvs := st.uvs }

/-- `BoundingBox` (`src/renderer/math/boundingbox.rs:3-15`). -/
structure BoundingBox where
  min_point : Vec3
  max_point : Vec3
deriving DecidableEq, Repr

/-- `MeshData::get_lowest` (`src/renderer/mesh.rs:332-343`). -/
def get_lowest (vertex : Vec3) (lowest : Option Vec3) : Vec3 :=
  match lowest with
  | none => vertex
  | some low => ⟨low.x.fmin vertex.x, low.y.fmin vertex.y, low.z.fmin vertex.z⟩

/-- `MeshData::get_highest` (`src/renderer/mesh.rs:345-356`). -/
def get_highest (vertex : Vec3) (highest : Option Vec3) : Vec3 :=
  match highest with
  | none => vertex
  | some high => ⟨high.x.fmax vertex.x, high.y.fmax vertex.y, high.z.fmax vertex.z⟩

/-- Rust `slice::chunks(3)`: chunks of 3, the last possibly shorter. -/
def chunks3 : List F → List (List F)
  | [] => []
  | [a] => [[a]]
  | [a, b] => [[a, b]]
  | a :: b :: c :: rest => [a, b, c] :: chunks3 rest

/-- The fold of `MeshData::bounding_box` over the chunks. -/
def boundingFold : (Option Vec3 × Option Vec3) → List (List F) →
    Option (Option Vec3 × Option Vec3)
  | acc, [] => some acc
  | acc, chunk :: rest =>
    match chunk with
    | x :: y :: z :: _ =>
      boundingFold (some (get_lowest ⟨x, y, z⟩ acc.1),
                    some (get_highest ⟨x, y, z⟩ acc.2)) rest
    | _ => none

/-- `MeshData::bounding_box` (`src/renderer/mesh.rs:358-370`).  The
outer `Option` models the panic on a short final chunk (`vertex[1]` /
`vertex[2]` out of bounds when `positions.len() % 3 ≠ 0`); the inner
`Option` is the function's own result: `none` when no chunk was seen. -/
def bounding_box (md : MeshData) : Option (Option BoundingBox) :=
  (boundingFold (none, none) (chunks3 md.positions)).map fun acc =>
    match acc.1, acc.2 with
    | some lowest, some highest => some ⟨lowest, highest⟩
    | _, _ => none


/-- Concrete document for claim C2: one position, one triangular face
whose attributes carry no uv index and no normal index. -/
def objC2 : Obj :=
  ⟨[⟨F.fin 0, F.fin 0, F.fin 0, F.fin 1⟩], [], [],
   [⟨[⟨1, none, none⟩, ⟨1, none, none⟩, ⟨1, none, none⟩]⟩]⟩

/-- The mesh the conversion produces for `objC2`: the fallback normal
components are NaN, the fallback uv components are zero. -/
def mdC2 : MeshData :=
  ⟨[F.fin 0, F.fin 0, F.fin 0], [F.nan, F.nan, F.nan], [], [F.fin 0, F.fin 0], [0, 0, 0]⟩

/-- The empty deduplicator accumulator. -/
def cstInit : ConvState := ⟨[], [], [], [], []⟩

/-- The accumulator after processing one fresh attribute `1` (no uv, no
normal) of `objC2`. -/
def cstC2 : ConvState :=
  ⟨[F.fin 0, F.fin 0, F.fin 0], [F.fin 0, F.fin 0], [F.nan, F.nan, F.nan], [0],
   [(⟨1, none, none⟩, 0)]⟩

/-- Component-wise `f32::min` of two vectors (the reduction the spec
describes for the bounding-box minimum). -/
def vecMin (a b : Vec3) : Vec3 := ⟨a.x.fmin b.x, a.y.fmin b.y, a.z.fmin b.z⟩

/-- Component-wise `f32::max` of two vectors. -/
def vecMax (a b : Vec3) : Vec3 := ⟨a.x.fmax b.x, a.y.fmax b.y, a.z.fmax b.z⟩

/-- The output position triples of a flat position array (the array a
successful conversion produces always has `3 · k` entries). -/
def positionTriples : List F → List Vec3
  | x :: y :: z :: rest => ⟨x, y, z⟩ :: positionTriples rest
  | _ => []

/-- Concrete document for the C7 witness: the spec's bounding-box
example with positions `(0,0,0)`, `(1,0,0)`, `(0,1,0)` and one
triangular face. -/
def objC7 : Obj :=
  ⟨[⟨F.fin 0, F.fin 0, F.fin 0, F.fin 1⟩, ⟨F.fin 1, F.fin 0, F.fin 0, F.fin 1⟩,
    ⟨F.fin 0, F.fin 1, F.fin 0, F.fin 1⟩], [], [],
   [⟨[⟨1, none, none⟩, ⟨2, none, none⟩, ⟨3, none, none⟩]⟩]⟩

/-- The mesh the conversion produces for `objC7`. -/
def mdC7 : MeshData :=
  ⟨[F.fin 0, F.fin 0, F.fin 0, F.fin 1, F.fin 0, F.fin 0, F.fin 0, F.fin 1, F.fin 0],
   [F.nan, F.nan, F.nan, F.nan, F.nan, F.nan, F.nan, F.nan, F.nan], [],
   [F.fin 0, F.fin 0, F.fin 0, F.fin 0, F.fin 0, F.fin 0], [0, 1, 2]⟩

/-- The leading token of a line the way `from_string` dispatches it:
`none` for blank and `#`-comment lines, otherwise the first
whitespace-separated token of the trimmed line. -/
def leadingToken (rawLine : List Char) : Option String :=
  let line := trimChars rawLine
  if line.length = 0 ∨ line.head? = some '#' then none
  else ((splitWs line).head?).map String.mk

/-- The nine tokens the `from_string` dispatcher recognizes. -/
def knownCommand (s : String) : Bool :=
  s ∈ ["v", "f", "mtllib", "usemtl", "s", "g", "o", "vt", "vn"]

/-- The corners of one face in the order the conversion loop visits
them: triangles of the fan, each flattened to its three attributes. -/
def faceCorners (obj : Obj) (face : Face) : List FaceAttribute :=
  (triangulate face.attributes obj.positions).flatMap fun t => [t.1, t.2.1, t.2.2]

/-- All triangulated face corners of a document in visit order. -/
def allCorners (obj : Obj) : List FaceAttribute :=
  obj.faces.flatMap (faceCorners obj)

/-- The conversion loop flattened to one fold over all corners. -/
def processCorners (obj : Obj) : ConvState → List FaceAttribute → Option ConvState
  | st, [] => some st
  | st, a :: rest => (processAttribute obj st a).bind fun st1 => processCorners obj st1 rest

/-- First occurrences of a list, in encounter order (the insertion
order of the deduplication map). -/
def firsts : List FaceAttribute → List FaceAttribute
  | [] => []
  | a :: l => a :: (firsts l).filter (fun x => x ≠ a)

/-- Position of the first occurrence of `a` in `l` (the output index
the deduplication map assigns). -/
def posIn (l : List FaceAttribute) (a : FaceAttribute) : Nat :=
  match l with
  | [] => 0
  | b :: rest => if b = a then 0 else posIn rest a + 1

/-- Invariant of the deduplication loop after consuming `seen`: the map
holds exactly the distinct corners seen so far with their first-seen
indices, the output arrays hold 3/3/2 entries per distinct corner, and
the index list maps each corner to its first-seen index. -/
def dedupInv (st : ConvState) (seen : List FaceAttribute) : Prop :=
  st.processed.length = (firsts seen).length ∧
  (∀ a : FaceAttribute, assocFind st.processed a =
    if a ∈ seen then some (posIn (firsts seen) a) else none) ∧
  st.positions.length = 3 * (firsts seen).length ∧
  st.normals.length = 3 * (firsts seen).length ∧
  st.uvs.length = 2 * (firsts seen).length ∧
  st.indices = seen.map (fun a => posIn (firsts seen) a % 2 ^ 32)

/-- Concrete document for the C3 witness: two faces referencing the
same three attribute triples. -/
def objC3 : Obj :=
  ⟨[⟨F.fin 0, F.fin 0, F.fin 0, F.fin 1⟩, ⟨F.fin 1, F.fin 0, F.fin 0, F.fin 1⟩,
    ⟨F.fin 0, F.fin 1, F.fin 0, F.fin 1⟩], [], [],
   [⟨[⟨1, none, none⟩, ⟨2, none, none⟩, ⟨3, none, none⟩]⟩,
    ⟨[⟨1, none, none⟩, ⟨2, none, none⟩, ⟨3, none, none⟩]⟩]⟩

/-- The mesh the conversion produces for `objC3`: three output
vertices, six indices. -/
def mdC3 : MeshData :=
  ⟨[F.fin 0, F.fin 0, F.fin 0, F.fin 1, F.fin 0, F.fin 0, F.fin 0, F.fin 1, F.fin 0],
   [F.nan, F.nan, F.nan, F.nan, F.nan, F.nan, F.nan, F.nan, F.nan], [],
   [F.fin 0, F.fin 0, F.fin 0, F.fin 0, F.fin 0, F.fin 0], [0, 1, 2, 0, 1, 2]⟩

/-!
Helper lemmas shared by several claims.
-/

/-- IEEE `!= 0.0` is the same test as inequality with `F.fin 0` (the
NaN case also compares unequal). -/
theorem F.beq_fin_zero_eq_false {a : F} (h : a ≠ F.fin 0) : a.beq (F.fin 0) = false := by
  cases a with
  | nan => rfl
  | inf s => rfl
  | fin q =>
    have hq : q ≠ 0 := fun e => h (by rw [e])
    simp [F.beq, hq]

/-- A face line with fewer than 3 operands trips the length check with
the `usize::MAX` upper bound substituted for the `0` sentinel. -/
theorem check_operand_length_face_short (n : Nat) (hn : n < 3) :
    check_operand_length 3 0 n =
      some (.InvalidOperandCount (some 3, some USIZE_MAX) n) := by
  simp [check_operand_length, USIZE_MAX, hn]

/-- A `v` line with an operand count outside `3..=4` trips the length
check with bounds `(some 3, some 4)`. -/
theorem check_operand_length_v_out (val : Nat) (h : val < 3 ∨ val > 4) :
    check_operand_length 3 4 val =
      some (.InvalidOperandCount (some 3, some 4) val) := by
  simp [check_operand_length, USIZE_MAX]
  omega

/-- A face line with at least 3 operands (and a length representable as
a `usize`, as every Rust slice length is) passes the length check. -/
theorem check_operand_length_face_ok (val : Nat) (h : 3 ≤ val) (h2 : val ≤ USIZE_MAX) :
    check_operand_length 3 0 val = none := by
  simp [check_operand_length, USIZE_MAX] at h2 ⊢
  omega

/-- Element `j` of the fan triangulation. -/
theorem triangulate_get (attrs : List FaceAttribute) (ps : List Vec4) (j : Nat)
    (hj : j < attrs.length - 2) :
    (triangulate attrs ps).get? j =
      some (attrs.getD 0 ⟨0, none, none⟩, attrs.getD (j + 1) ⟨0, none, none⟩,
        attrs.getD (j + 2) ⟨0, none, none⟩) := by
  have hj2 : j < attrs.length - 1 - 1 := by omega
  simp only [triangulate, List.get?_map, List.get?_range' 1 1 hj2]
  rw [show 1 + 1 * j = j + 1 from by omega]
  rfl

/-- Claim C9: `Vec3::normalize` returns the input unchanged when its
length is nonzero, and divides each component by the length only when
the length is zero; in the degenerate all-zero case this divides `0.0`
by `0.0`, producing NaN components. -/
theorem c9_normalize_inverted :
    (∀ v : Vec3, v.length ≠ F.fin 0 → v.normalize = v) ∧
    (∀ v : Vec3, v.length = F.fin 0 →
      v.normalize = ⟨v.x.div v.length, v.y.div v.length, v.z.div v.length⟩) ∧
    Vec3.normalize ⟨F.fin 0, F.fin 0, F.fin 0⟩ = ⟨F.nan, F.nan, F.nan⟩ := by
  refine ⟨fun v h => ?_, fun v h => ?_, by decide⟩
  · simp only [Vec3.normalize]
    rw [F.beq_fin_zero_eq_false h]
    rfl
  · simp only [Vec3.normalize, h]
    simp [F.beq]

/-- Witness for C9 at a concrete vector of length 3. -/
theorem c9_normalize_witness :
    Vec3.normalize ⟨F.fin 1, F.fin 2, F.fin 2⟩ = ⟨F.fin 1, F.fin 2, F.fin 2⟩ :=
  c9_normalize_inverted.1 ⟨F.fin 1, F.fin 2, F.fin 2⟩ (by decide)

/-- Claim C4: `triangulate` on a face of `n ≥ 3` attributes produces
exactly `n - 2` triangles by fan triangulation anchored at attribute 0:
output triangle `j` is `(attributes[0], attributes[j+1], attributes[j+2])`
(the spec's triangle `i = j + 1` for `i` in `1..n-1`); a 4-attribute face
`[A,B,C,D]` yields exactly `(A,B,C)` and `(A,C,D)`, and a 3-attribute
face yields itself. -/
theorem c4_triangulate_fan :
    (∀ (attrs : List FaceAttribute) (ps : List Vec4), 3 ≤ attrs.length →
      (triangulate attrs ps).length = attrs.length - 2 ∧
      ∀ j, j < attrs.length - 2 →
        (triangulate attrs ps).get? j =
          some (attrs.getD 0 ⟨0, none, none⟩, attrs.getD (j + 1) ⟨0, none, none⟩,
            attrs.getD (j + 2) ⟨0, none, none⟩)) ∧
    (∀ (A B C D : FaceAttribute) (ps : List Vec4),
      triangulate [A, B, C, D] ps = [(A, B, C), (A, C, D)]) ∧
    (∀ (A B C : FaceAttribute) (ps : List Vec4),
      triangulate [A, B, C] ps = [(A, B, C)]) := by
  refine ⟨fun attrs ps h => ⟨?_, fun j hj => triangulate_get attrs ps j hj⟩,
    fun A B C D ps => rfl, fun A B C ps => rfl⟩
  simp only [triangulate, List.length_map, List.length_range']
  omega

/-- Witness for C4 at a concrete 5-attribute face. -/
theorem c4_triangulate_witness :
    (triangulate [⟨1, none, none⟩, ⟨2, none, none⟩, ⟨3, none, none⟩,
        ⟨4, none, none⟩, ⟨5, none, none⟩] []).length = 3 ∧
    (triangulate [⟨1, none, none⟩, ⟨2, none, none⟩, ⟨3, none, none⟩,
        ⟨4, none, none⟩, ⟨5, none, none⟩] []).get? 1 =
      some (⟨1, none, none⟩, ⟨3, none, none⟩, ⟨4, none, none⟩) := by
  have h := c4_triangulate_fan.1
    [⟨1, none, none⟩, ⟨2, none, none⟩, ⟨3, none, none⟩, ⟨4, none, none⟩, ⟨5, none, none⟩]
    [] (by decide)
  exact ⟨h.1, h.2 1 (by decide)⟩

/-- Claim C10: for a face line with fewer than 3 operands the reported
expected range is `(some 3, some usize::MAX)` — the `max = 0` sentinel
is replaced by `usize::MAX` before the `none`-reporting test, so the
`none` upper bound is unreachable for the face directive. -/
theorem c10_face_count_upper_bound :
    (∀ n, n < 3 → check_operand_length 3 0 n =
      some (.InvalidOperandCount (some 3, some USIZE_MAX) n)) ∧
    (∀ (fn : Option String) (i : Nat) (ops : List (List Char)) (faces : List Face),
      ops.length < 3 →
      handle_face_line fn i ops faces =
        .error (.ParseError fn (i + 1)
          (.InvalidOperandCount (some 3, some USIZE_MAX) ops.length))) := by
  refine ⟨check_operand_length_face_short, fun fn i ops faces h => ?_⟩
  simp only [handle_face_line, check_operand_length_face_short ops.length h]
  rfl

/-- Witness for C10 at a 2-operand face line. -/
theorem c10_face_count_witness :
    handle_face_line none 0 [['1'], ['2']] [] =
      .error (.ParseError none 1 (.InvalidOperandCount (some 3, some USIZE_MAX) 2)) :=
  c10_face_count_upper_bound.2 none 0 [['1'], ['2']] [] (by decide)

/-- Claim C8: a `v` line with an operand count outside `3..=4` fails
with `InvalidOperandCount{expected:(3,4), got:n}` carrying the 1-indexed
line number; in particular `"v 1.0 2.0\n"` fails that way at line 1. -/
theorem c8_position_operand_count :
    (∀ (fn : Option String) (i : Nat) (ops : List (List Char)) (ps : List Vec4),
      ops.length < 3 ∨ ops.length > 4 →
      handle_positions_line fn i ops ps =
        .error (.ParseError fn (i + 1)
          (.InvalidOperandCount (some 3, some 4) ops.length))) ∧
    from_string "v 1.0 2.0\n" none =
      .error (.ParseError none 1 (.InvalidOperandCount (some 3, some 4) 2)) := by
  refine ⟨fun fn i ops ps h => ?_, by decide⟩
  simp only [handle_positions_line, check_operand_length_v_out ops.length h]
  rfl

/-- Witness for C8 at a 2-operand position line. -/
theorem c8_position_operand_witness :
    handle_positions_line none 0 [['1', '.', '0'], ['2', '.', '0']] [] =
      .error (.ParseError none 1 (.InvalidOperandCount (some 3, some 4) 2)) :=
  c8_position_operand_count.1 none 0 [['1', '.', '0'], ['2', '.', '0']] []
    (Or.inl (by decide))


/-- Claim C5: on a face line whose operands all parse as integers, a
zero position sub-field is rejected with `InvalidFaceOperand(0)` —
distinct from the `FaceParseIntError` raised when integer parsing
itself fails — and `"f 1 2 0\n"` after a valid `v` line fails with
`InvalidFaceOperand(0)`.  (Rust slice lengths always satisfy the
`ops.length ≤ usize::MAX` side condition.) -/
theorem c5_invalid_face_operand_zero :
    (∀ (fn : Option String) (i : Nat) (ops : List (List Char)) (faces : List Face)
      (attrs : List FaceAttribute),
      3 ≤ ops.length → ops.length ≤ USIZE_MAX →
      parse_face_from_line ops = some attrs →
      0 ∈ attrs.map (fun a => a.position_index) →
      handle_face_line fn i ops faces =
        .error (.ParseError fn (i + 1) (.InvalidFaceOperand 0))) ∧
    (∀ (fn : Option String) (i : Nat) (ops : List (List Char)) (faces : List Face),
      3 ≤ ops.length → ops.length ≤ USIZE_MAX →
      parse_face_from_line ops = none →
      handle_face_line fn i ops faces =
        .error (.ParseError fn (i + 1) .FaceParseIntError)) ∧
    from_string "v 0 0 0\nf 1 2 0\n" none =
      .error (.ParseError none 2 (.InvalidFaceOperand 0)) := by
  refine ⟨fun fn i ops faces attrs h1 h2 hp hmem => ?_,
    fun fn i ops faces h1 h2 hp => ?_, by decide⟩
  · simp only [handle_face_line, check_operand_length_face_ok ops.length h1 h2, hp]
    rw [if_pos (by simpa using hmem)]
    rfl
  · simp only [handle_face_line, check_operand_length_face_ok ops.length h1 h2, hp]
    rfl

/-- Witness for C5 at the face line `f 1 2 0`. -/
theorem c5_invalid_face_operand_witness :
    handle_face_line none 1 [['1'], ['2'], ['0']] [] =
      .error (.ParseError none 2 (.InvalidFaceOperand 0)) :=
  c5_invalid_face_operand_zero.1 none 1 [['1'], ['2'], ['0']] []
    [⟨1, none, none⟩, ⟨2, none, none⟩, ⟨0, none, none⟩]
    (by decide) (by decide) (by decide) (by decide)

/-- Claim C1 (code bug): on `"f 1 2 3\n"` with only two declared
positions the parser succeeds, and the conversion to `MeshData` hits
`obj.positions[2]` on a 2-element array — a panic, modelled as `none` —
instead of returning the `IndexOutOfRange{position, 3, 2}` error the
spec requires (no such error kind exists in the code). -/
theorem c1_index_out_of_range_panics :
    from_string "v 0 0 0\nv 1 1 1\nf 1 2 3\n" none =
      .ok ⟨[⟨F.fin 0, F.fin 0, F.fin 0, F.fin 1⟩, ⟨F.fin 1, F.fin 1, F.fin 1, F.fin 1⟩],
        [], [], [⟨[⟨1, none, none⟩, ⟨2, none, none⟩, ⟨3, none, none⟩]⟩]⟩ ∧
    mesh_data_from_obj ⟨[⟨F.fin 0, F.fin 0, F.fin 0, F.fin 1⟩,
        ⟨F.fin 1, F.fin 1, F.fin 1, F.fin 1⟩], [], [],
      [⟨[⟨1, none, none⟩, ⟨2, none, none⟩, ⟨3, none, none⟩]⟩]⟩ = none :=
  ⟨by decide, by decide⟩

/-- Counterexample for claim C2 as stated: converting `objC2`, whose
single face has attributes with absent normal indices, stores NaN
normal components, not the zero vector. -/
theorem c2_normal_fallback_counterexample :
    mesh_data_from_obj objC2 = some mdC2 ∧
    mdC2.normals = [F.nan, F.nan, F.nan] ∧
    mdC2.normals ≠ [F.fin 0, F.fin 0, F.fin 0] :=
  ⟨by decide, by decide, by decide⟩

/-- Claim C2 as amended: for a fresh face attribute the deduplicator
stores the zero uv when `uv_index` is absent, but for an absent
`normal_index` it stores `Vec3(0,0,0).normalize()`, whose components
are NaN because `normalize` divides zero by the zero length. -/
theorem c2_fallbacks_amended :
    ∀ (obj : Obj) (st st1 : ConvState) (a : FaceAttribute),
      assocFind st.processed a = none →
      processAttribute obj st a = some st1 →
      (a.normal_index = none → st1.normals = st.normals ++ [F.nan, F.nan, F.nan]) ∧
      (a.texture_coordinate_index = none → st1.uvs = st.uvs ++ [F.fin 0, F.fin 0]) := by
  intro obj st st1 a hfind hstep
  simp only [processAttribute, hfind] at hstep
  cases hpos : arrIndex obj.positions a.position_index with
  | none => rw [hpos] at hstep; simp at hstep
  | some p =>
    rw [hpos] at hstep
    cases hnr : (match a.normal_index with
                 | some index => arrIndex obj.normals index
                 | none => some (⟨F.fin 0, F.fin 0, F.fin 0⟩ : Vec3)) with
    | none => rw [hnr] at hstep; simp at hstep
    | some rawNormal =>
      rw [hnr] at hstep
      cases huv : (match a.texture_coordinate_index with
                   | some index => arrIndex obj.uvs index
                   | none => some (⟨F.fin 0, F.fin 0, F.fin 0⟩ : Vec3)) with
      | none => rw [huv] at hstep; simp at hstep
      | some uv =>
        rw [huv] at hstep
        simp only [Option.some.injEq] at hstep
        subst hstep
        constructor
        · intro hn
          rw [hn] at hnr
          simp only [Option.some.injEq] at hnr
          subst hnr
          simp [show Vec3.normalize ⟨F.fin 0, F.fin 0, F.fin 0⟩ = ⟨F.nan, F.nan, F.nan⟩
            from by decide]
        · intro ht
          rw [ht] at huv
          simp only [Option.some.injEq] at huv
          subst huv
          simp

/-- Witness for the amended C2 at a concrete fresh attribute of
`objC2`. -/
theorem c2_fallbacks_witness :
    cstC2.normals = ([] : List F) ++ [F.nan, F.nan, F.nan] ∧
    cstC2.uvs = ([] : List F) ++ [F.fin 0, F.fin 0] :=
  ⟨(c2_fallbacks_amended objC2 cstInit cstC2 ⟨1, none, none⟩ (by decide) (by decide)).1 rfl,
   (c2_fallbacks_amended objC2 cstInit cstC2 ⟨1, none, none⟩ (by decide) (by decide)).2 rfl⟩

/-- Run a `foldlM` step-preserved predicate over the accumulator. -/
theorem foldlM_preserve {β : Type} (f : ConvState → β → Option ConvState)
    (P : ConvState → Prop)
    (hf : ∀ st b st1, f st b = some st1 → P st → P st1) :
    ∀ (l : List β) (st st1 : ConvState), List.foldlM f st l = some st1 → P st → P st1 := by
  intro l
  induction l with
  | nil =>
    intro st st1 h hp
    have h2 : some st = some st1 := h
    cases h2
    exact hp
  | cons b rest ih =>
    intro st st1 h hp
    rw [List.foldlM_cons] at h
    cases hb : f st b with
    | none => rw [hb] at h; simp at h
    | some st2 =>
      rw [hb] at h
      simp only [Option.bind_eq_bind, Option.some_bind] at h
      exact ih st2 st1 h (hf st b st2 hb hp)

/-- One deduplication step appends zero or three position components. -/
theorem processAttribute_mod3 (obj : Obj) (st : ConvState) (a : FaceAttribute)
    (st1 : ConvState) (h : processAttribute obj st a = some st1) :
    st1.positions.length % 3 = st.positions.length % 3 := by
  simp only [processAttribute] at h
  cases hf : assocFind st.processed a with
  | some idx => rw [hf] at h; simp only [Option.some.injEq] at h; subst h; rfl
  | none =>
    rw [hf] at h
    cases hpos : arrIndex obj.positions a.position_index with
    | none => rw [hpos] at h; simp at h
    | some p =>
      rw [hpos] at h
      cases hnr : (match a.normal_index with
                   | some index => arrIndex obj.normals index
                   | none => some (⟨F.fin 0, F.fin 0, F.fin 0⟩ : Vec3)) with
      | none => rw [hnr] at h; simp at h
      | some rawNormal =>
        rw [hnr] at h
        cases huv : (match a.texture_coordinate_index with
                     | some index => arrIndex obj.uvs index
                     | none => some (⟨F.fin 0, F.fin 0, F.fin 0⟩ : Vec3)) with
        | none => rw [huv] at h; simp at h
        | some uv =>
          rw [huv] at h
          simp only [Option.some.injEq] at h
          subst h
          simp [List.length_append]

/-- A triangle step preserves the position-array length modulo 3. -/
theorem processTriangle_mod3 (obj : Obj) (st : ConvState)
    (t : FaceAttribute × FaceAttribute × FaceAttribute) (st1 : ConvState)
    (h : processTriangle obj st t = some st1) :
    st1.positions.length % 3 = st.positions.length % 3 := by
  simp only [processTriangle] at h
  cases h1 : processAttribute obj st t.1 with
  | none => rw [h1] at h; simp at h
  | some sta =>
    rw [h1] at h; simp only [Option.some_bind] at h
    cases h2 : processAttribute obj sta t.2.1 with
    | none => rw [h2] at h; simp at h
    | some stb =>
      rw [h2] at h; simp only [Option.some_bind] at h
      rw [processAttribute_mod3 obj stb t.2.2 st1 h,
        processAttribute_mod3 obj sta t.2.1 stb h2,
        processAttribute_mod3 obj st t.1 sta h1]

/-- A successful conversion always produces `3 · k` position entries. -/
theorem mesh_positions_mod3 (obj : Obj) (md : MeshData)
    (h : mesh_data_from_obj obj = some md) : md.positions.length % 3 = 0 := by
  simp only [mesh_data_from_obj] at h
  cases hf : obj.faces.foldlM (processFace obj) ⟨[], [], [], [], []⟩ with
  | none => rw [hf] at h; simp at h
  | some stF =>
    rw [hf] at h; simp only [Option.map_some', Option.some.injEq] at h
    subst h
    refine foldlM_preserve (processFace obj) (fun st => st.positions.length % 3 = 0)
      ?_ obj.faces ⟨[], [], [], [], []⟩ stF hf rfl
    intro st b st1 hface hp
    refine foldlM_preserve (processTriangle obj) (fun st => st.positions.length % 3 = 0)
      ?_ (triangulate b.attributes obj.positions) st st1 hface hp
    intro st b2 st1 htri hp2
    rw [processTriangle_mod3 obj st b2 st1 htri]
    exact hp2

/-- On an array of `3 · k` entries, `chunks(3)` yields exactly the
position triples. -/
theorem chunks3_triples (l : List F) (h : l.length % 3 = 0) :
    chunks3 l = (positionTriples l).map (fun v => [v.x, v.y, v.z]) := by
  induction l using chunks3.induct with
  | case1 => rfl
  | case2 a => simp at h
  | case3 a b => simp at h
  | case4 a b c rest ih =>
    have hr : rest.length % 3 = 0 := by simp at h; omega
    simp only [chunks3, positionTriples, List.map_cons]
    rw [ih hr]

/-- The bounding-box fold over full 3-chunks never panics and computes
the running lowest/highest pair. -/
theorem boundingFold_map (vs : List Vec3) :
    ∀ (lo hi : Option Vec3),
    boundingFold (lo, hi) (vs.map fun v => [v.x, v.y, v.z]) =
      some (vs.foldl (fun a w => some (get_lowest w a)) lo,
            vs.foldl (fun a w => some (get_highest w a)) hi) := by
  induction vs with
  | nil => intro lo hi; rfl
  | cons v rest ih =>
    intro lo hi
    simp only [List.map_cons, boundingFold, List.foldl_cons]
    exact ih (some (get_lowest v lo)) (some (get_highest v hi))

/-- After the first vertex, the running lowest is a plain `vecMin`
fold. -/
theorem foldl_lowest (rest : List Vec3) : ∀ v : Vec3,
    rest.foldl (fun a w => some (get_lowest w a)) (some v) =
      some (rest.foldl vecMin v) := by
  induction rest with
  | nil => intro v; rfl
  | cons w rest ih =>
    intro v
    simp only [List.foldl_cons]
    exact ih (vecMin v w)

/-- After the first vertex, the running highest is a plain `vecMax`
fold. -/
theorem foldl_highest (rest : List Vec3) : ∀ v : Vec3,
    rest.foldl (fun a w => some (get_highest w a)) (some v) =
      some (rest.foldl vecMax v) := by
  induction rest with
  | nil => intro v; rfl
  | cons w rest ih =>
    intro v
    simp only [List.foldl_cons]
    exact ih (vecMax v w)

/-- `get_lowest` with no running minimum returns the vertex. -/
theorem get_lowest_none (v : Vec3) : get_lowest v none = v := rfl

/-- `get_highest` with no running maximum returns the vertex. -/
theorem get_highest_none (v : Vec3) : get_highest v none = v := rfl

/-- On a `3 · k`-entry array an empty triple list means an empty
array. -/
theorem triples_nil (l : List F) (h : l.length % 3 = 0)
    (hpt : positionTriples l = []) : l = [] := by
  cases l with
  | nil => rfl
  | cons a l2 =>
    cases l2 with
    | nil => simp at h
    | cons b l3 =>
      cases l3 with
      | nil => simp at h
      | cons c l4 => simp [positionTriples] at hpt

/-- Claim C7: over a converted mesh, `bounding_box` returns `None`
exactly when there are zero positions, and otherwise a box whose min
and max are the component-wise minimum and maximum over all positions;
a document with zero `v` lines yields a mesh with zero vertices and a
`None` bounding box. -/
theorem c7_bounding_box :
    (∀ (obj : Obj) (md : MeshData), mesh_data_from_obj obj = some md →
      (bounding_box md = some none ↔ md.positions = []) ∧
      (∀ (v : Vec3) (vs : List Vec3), positionTriples md.positions = v :: vs →
        bounding_box md = some (some ⟨vs.foldl vecMin v, vs.foldl vecMax v⟩))) ∧
    from_string "" none = .ok ⟨[], [], [], []⟩ ∧
    mesh_data_from_obj ⟨[], [], [], []⟩ = some ⟨[], [], [], [], []⟩ ∧
    bounding_box ⟨[], [], [], [], []⟩ = some none := by
  refine ⟨fun obj md h => ?_, rfl, rfl, rfl⟩
  have hmod := mesh_positions_mod3 obj md h
  have hchunks := chunks3_triples md.positions hmod
  have hbb : ∀ (v : Vec3) (vs : List Vec3), positionTriples md.positions = v :: vs →
      bounding_box md = some (some ⟨vs.foldl vecMin v, vs.foldl vecMax v⟩) := by
    intro v vs hpt
    simp only [bounding_box, hchunks, hpt]
    rw [boundingFold_map (v :: vs) none none]
    simp only [List.foldl_cons]
    rw [get_lowest_none, get_highest_none, foldl_lowest vs v, foldl_highest vs v]
    rfl
  refine ⟨⟨fun hb => ?_, fun hemp => ?_⟩, hbb⟩
  · cases hpt : positionTriples md.positions with
    | nil => exact triples_nil md.positions hmod hpt
    | cons v vs =>
      rw [hbb v vs hpt] at hb
      simp at hb
  · have hce : chunks3 md.positions = [] := by rw [hemp]; rfl
    simp only [bounding_box, hce]
    rfl

/-- Witness for C7 at the spec's example: positions `(0,0,0)`,
`(1,0,0)`, `(0,1,0)` give the box `min=(0,0,0)`, `max=(1,1,0)`. -/
theorem c7_bounding_box_witness :
    bounding_box mdC7 =
      some (some ⟨⟨F.fin 0, F.fin 0, F.fin 0⟩, ⟨F.fin 1, F.fin 1, F.fin 0⟩⟩) :=
  (c7_bounding_box.1 objC7 mdC7 (by decide)).2 ⟨F.fin 0, F.fin 0, F.fin 0⟩
    [⟨F.fin 1, F.fin 0, F.fin 0⟩, ⟨F.fin 0, F.fin 1, F.fin 0⟩] (by decide)

/-- An `Except.map` result is an error exactly when the argument is. -/
theorem except_map_error_iff {α β γ : Type} (r : Except α β) (g : β → γ) (e : α) :
    Except.map g r = .error e ↔ r = .error e := by
  cases r <;> simp [Except.map]

/-- `check_operand_length` only ever reports `InvalidOperandCount`. -/
theorem check_operand_length_shape (mn mx val : Nat) (d : WavefrontObjParseErrorDetail)
    (h : check_operand_length mn mx val = some d) :
    ∃ e g, d = .InvalidOperandCount e g := by
  simp only [check_operand_length] at h
  split at h
  all_goals split at h
  all_goals try (injection h with h; exact ⟨_, _, h.symm⟩)
  all_goals simp at h

/-- The `v` handler never reports `UnknownCommand`. -/
theorem handle_positions_line_no_unknown (fn : Option String) (i : Nat)
    (ops : List (List Char)) (ps : List Vec4) (fn2 : Option String) (n : Nat)
    (tok : String) :
    handle_positions_line fn i ops ps ≠ .error (.ParseError fn2 n (.UnknownCommand tok)) := by
  intro h
  simp only [handle_positions_line] at h
  split at h
  · rename_i detail heq
    obtain ⟨e, g, rfl⟩ := check_operand_length_shape _ _ _ _ heq
    simp [parse_error] at h
  · split at h
    · simp [parse_error] at h
    · simp at h

/-- The `vt` handler never reports `UnknownCommand`. -/
theorem handle_uv_line_no_unknown (fn : Option String) (i : Nat)
    (ops : List (List Char)) (uvs : List Vec3) (fn2 : Option String) (n : Nat)
    (tok : String) :
    handle_uv_line fn i ops uvs ≠ .error (.ParseError fn2 n (.UnknownCommand tok)) := by
  intro h
  simp only [handle_uv_line] at h
  split at h
  · rename_i detail heq
    obtain ⟨e, g, rfl⟩ := check_operand_length_shape _ _ _ _ heq
    simp [parse_error] at h
  · split at h
    · simp [parse_error] at h
    · simp at h

/-- The `vn` handler never reports `UnknownCommand`. -/
theorem handle_normal_line_no_unknown (fn : Option String) (i : Nat)
    (ops : List (List Char)) (ns : List Vec3) (fn2 : Option String) (n : Nat)
    (tok : String) :
    handle_normal_line fn i ops ns ≠ .error (.ParseError fn2 n (.UnknownCommand tok)) := by
  intro h
  simp only [handle_normal_line] at h
  split at h
  · rename_i detail heq
    obtain ⟨e, g, rfl⟩ := check_operand_length_shape _ _ _ _ heq
    simp [parse_error] at h
  · split at h
    · simp [parse_error] at h
    · simp at h

/-- The `f` handler never reports `UnknownCommand`. -/
theorem handle_face_line_no_unknown (fn : Option String) (i : Nat)
    (ops : List (List Char)) (fs : List Face) (fn2 : Option String) (n : Nat)
    (tok : String) :
    handle_face_line fn i ops fs ≠ .error (.ParseError fn2 n (.UnknownCommand tok)) := by
  intro h
  simp only [handle_face_line] at h
  split at h
  · rename_i detail heq
    obtain ⟨e, g, rfl⟩ := check_operand_length_shape _ _ _ _ heq
    simp [parse_error] at h
  · split at h
    · simp [parse_error] at h
    · split at h
      · simp [parse_error] at h
      · simp at h


/-- One dispatcher step fails with `UnknownCommand(tok)` exactly when
the line is non-blank, non-comment, and led by `tok` with `tok` outside
the recognized set; the reported line is the 1-indexed `i + 1`. -/
theorem processLine_unknown_iff (fn : Option String) (st : Obj) (i : Nat)
    (l : List Char) (fn2 : Option String) (n : Nat) (tok : String) :
    processLine fn st i l = .error (.ParseError fn2 n (.UnknownCommand tok)) ↔
      (leadingToken l = some tok ∧ knownCommand tok = false ∧ fn2 = fn ∧ n = i + 1) := by
  by_cases hblank : (trimChars l).length = 0 ∨ (trimChars l).head? = some '#'
  · have hblank2 : trimChars l = [] ∨ (trimChars l).head? = some '#' := by
      rcases hblank with h | h
      · exact Or.inl (List.length_eq_zero.mp h)
      · exact Or.inr h
    simp [processLine, leadingToken, hblank2]
  · simp only [processLine, leadingToken, if_neg hblank]
    cases hsplit : splitWs (trimChars l) with
    | nil => simp
    | cons cmd ops =>
      simp only [List.head?, Option.map_some']
      split
      case _ heq =>
        rw [heq]
        simp [except_map_error_iff,
          handle_positions_line_no_unknown fn i ops st.positions fn2 n tok, knownCommand]
        intro h; rw [← h]; simp
      case _ heq =>
        rw [heq]
        simp [except_map_error_iff,
          handle_face_line_no_unknown fn i ops st.faces fn2 n tok, knownCommand]
        intro h; rw [← h]; simp
      case _ heq =>
        rw [heq]; simp [knownCommand]; intro h; rw [← h]; simp
      case _ heq =>
        rw [heq]; simp [knownCommand]; intro h; rw [← h]; simp
      case _ heq =>
        rw [heq]; simp [knownCommand]; intro h; rw [← h]; simp
      case _ heq =>
        rw [heq]; simp [knownCommand]; intro h; rw [← h]; simp
      case _ heq =>
        rw [heq]; simp [knownCommand]; intro h; rw [← h]; simp
      case _ heq =>
        rw [heq]
        simp [except_map_error_iff,
          handle_uv_line_no_unknown fn i ops st.uvs fn2 n tok, knownCommand]
        intro h; rw [← h]; simp
      case _ heq =>
        rw [heq]
        simp [except_map_error_iff,
          handle_normal_line_no_unknown fn i ops st.normals fn2 n tok, knownCommand]
        intro h; rw [← h]; simp
      case _ h1 h2 h3 h4 h5 h6 h7 h8 h9 =>
        simp [parse_error, knownCommand]
        constructor
        · rintro ⟨rfl, rfl, rfl⟩
          refine ⟨rfl, ⟨?_, ?_, ?_, ?_, ?_, ?_, ?_, ?_, ?_⟩, rfl, rfl⟩ <;> assumption
        · rintro ⟨rfl, hk, rfl, rfl⟩
          exact ⟨rfl, rfl, rfl⟩


/-- The parse loop fails with `UnknownCommand(tok)` exactly when some
line has an unrecognized leading token and every earlier line was
accepted. -/
theorem runLines_unknown_iff (fn : Option String) :
    ∀ (ls : List (List Char)) (st : Obj) (k : Nat) (fn2 : Option String) (n : Nat)
      (tok : String),
    runLines fn st k ls = .error (.ParseError fn2 n (.UnknownCommand tok)) ↔
      ∃ i l, ls.get? i = some l ∧ leadingToken l = some tok ∧
        knownCommand tok = false ∧ fn2 = fn ∧ n = k + i + 1 ∧
        ∃ st2, runLines fn st k (ls.take i) = .ok st2 := by
  intro ls
  induction ls with
  | nil =>
    intro st k fn2 n tok
    constructor
    · intro h
      exact absurd h (by simp [runLines])
    · rintro ⟨i, l, hget, -⟩
      simp at hget
  | cons l rest ih =>
    intro st k fn2 n tok
    constructor
    · intro h
      replace h : (match processLine fn st k l with
          | .ok st1 => runLines fn st1 (k + 1) rest
          | .error e => .error e) =
          Except.error (.ParseError fn2 n (.UnknownCommand tok)) := h
      cases hp : processLine fn st k l with
      | error e =>
        rw [hp] at h
        replace h : (Except.error e : Except WavefrontObjError Obj) =
            .error (.ParseError fn2 n (.UnknownCommand tok)) := h
        injection h with h
        subst h
        obtain ⟨hlt, hkc, hfn, hn⟩ := (processLine_unknown_iff fn st k l fn2 n tok).mp hp
        exact ⟨0, l, rfl, hlt, hkc, hfn, by omega, st, rfl⟩
      | ok st1 =>
        rw [hp] at h
        replace h : runLines fn st1 (k + 1) rest =
            .error (.ParseError fn2 n (.UnknownCommand tok)) := h
        obtain ⟨i, l2, hget, hlt, hkc, hfn, hn, st2, hrun⟩ :=
          (ih st1 (k + 1) fn2 n tok).mp h
        refine ⟨i + 1, l2, hget, hlt, hkc, hfn, by omega, st2, ?_⟩
        show (match processLine fn st k l with
          | .ok st1 => runLines fn st1 (k + 1) (rest.take i)
          | .error e => .error e) = .ok st2
        rw [hp]
        exact hrun
    · rintro ⟨i, l2, hget, hlt, hkc, hfn, hn, st2, hrun⟩
      cases i with
      | zero =>
        replace hget : some l = some l2 := hget
        injection hget with hget
        subst hget
        have hp : processLine fn st k l = .error (.ParseError fn2 n (.UnknownCommand tok)) :=
          (processLine_unknown_iff fn st k l fn2 n tok).mpr ⟨hlt, hkc, hfn, by omega⟩
        show (match processLine fn st k l with
          | .ok st1 => runLines fn st1 (k + 1) rest
          | .error e => .error e) = _
        rw [hp]
      | succ j =>
        replace hrun : (match processLine fn st k l with
            | .ok st1 => runLines fn st1 (k + 1) (rest.take j)
            | .error e => .error e) = .ok st2 := hrun
        cases hp : processLine fn st k l with
        | error e =>
          rw [hp] at hrun
          exact absurd hrun (by simp)
        | ok st1 =>
          rw [hp] at hrun
          show (match processLine fn st k l with
            | .ok st1 => runLines fn st1 (k + 1) rest
            | .error e => .error e) = _
          rw [hp]
          exact (ih st1 (k + 1) fn2 n tok).mpr
            ⟨j, l2, hget, hlt, hkc, hfn, by omega, st2, hrun⟩

/-- Lines led by `mtllib`, `usemtl`, `s`, `g`, `o` are accepted and
leave the document state untouched. -/
theorem processLine_discard (fn : Option String) (st : Obj) (i : Nat) (l : List Char)
    (tok : String) (hlt : leadingToken l = some tok)
    (hm : tok ∈ (["mtllib", "usemtl", "s", "g", "o"] : List String)) :
    processLine fn st i l = .ok st := by
  simp only [leadingToken] at hlt
  by_cases hblank : (trimChars l).length = 0 ∨ (trimChars l).head? = some '#'
  · rw [if_pos hblank] at hlt
    simp at hlt
  · rw [if_neg hblank] at hlt
    simp only [processLine, if_neg hblank]
    cases hsplit : splitWs (trimChars l) with
    | nil => rfl
    | cons cmd ops =>
      rw [hsplit] at hlt
      simp only [List.head?, Option.map_some'] at hlt
      injection hlt with hlt
      have hc : cmd = String.data tok := congrArg String.data hlt
      subst hc
      simp only [List.mem_cons, List.not_mem_nil, or_false] at hm
      rcases hm with rfl | rfl | rfl | rfl | rfl
      all_goals rfl


/-- Claim C6: parsing fails with `UnknownCommand(token)` exactly when
some non-blank, non-comment line has a leading token other than `v`,
`vt`, `vn`, `f`, `mtllib`, `usemtl`, `s`, `g`, `o`, all earlier lines
having been accepted; `mtllib`/`usemtl`/`s`/`g`/`o` lines are accepted
and produce no record and no error; `"zz 1 2 3\n"` fails with
`UnknownCommand("zz")`. -/
theorem c6_unknown_command :
    (∀ (data : String) (fn fn2 : Option String) (n : Nat) (tok : String),
      from_string data fn = .error (.ParseError fn2 n (.UnknownCommand tok)) ↔
        ∃ i l, (rustLines data.toList).get? i = some l ∧ leadingToken l = some tok ∧
          knownCommand tok = false ∧ fn2 = fn ∧ n = i + 1 ∧
          ∃ st2, runLines fn ⟨[], [], [], []⟩ 0 ((rustLines data.toList).take i) = .ok st2) ∧
    (∀ (fn : Option String) (st : Obj) (i : Nat) (l : List Char) (tok : String),
      leadingToken l = some tok →
      tok ∈ (["mtllib", "usemtl", "s", "g", "o"] : List String) →
      processLine fn st i l = .ok st) ∧
    from_string "zz 1 2 3\n" none = .error (.ParseError none 1 (.UnknownCommand "zz")) := by
  refine ⟨fun data fn fn2 n tok => ?_, processLine_discard, by decide⟩
  have h := runLines_unknown_iff fn (rustLines data.toList) ⟨[], [], [], []⟩ 0 fn2 n tok
  simpa [from_string] using h

/-- Witness for C6: a `usemtl` line is accepted with no state change. -/
theorem c6_unknown_command_witness :
    processLine none ⟨[], [], [], []⟩ 0 "usemtl mat".toList = .ok ⟨[], [], [], []⟩ :=
  c6_unknown_command.2.1 none ⟨[], [], [], []⟩ 0 "usemtl mat".toList "usemtl"
    (by decide) (by decide)


/-- `firsts` keeps exactly the members. -/
theorem mem_firsts (a : FaceAttribute) : ∀ l : List FaceAttribute, a ∈ firsts l ↔ a ∈ l := by
  intro l
  induction l with
  | nil => simp [firsts]
  | cons b rest ih =>
    simp only [firsts, List.mem_cons, List.mem_filter]
    constructor
    · rintro (rfl | ⟨hm, -⟩)
      · exact Or.inl rfl
      · exact Or.inr (ih.mp hm)
    · rintro (rfl | hm)
      · exact Or.inl rfl
      · by_cases hab : a = b
        · exact Or.inl hab
        · exact Or.inr ⟨ih.mpr hm, by simpa using hab⟩

/-- `firsts` has no duplicates. -/
theorem firsts_nodup : ∀ l : List FaceAttribute, (firsts l).Nodup := by
  intro l
  induction l with
  | nil => simp [firsts]
  | cons b rest ih =>
    simp only [firsts]
    refine List.Nodup.cons ?_ (List.Nodup.filter _ ih)
    intro hmem
    have := (List.mem_filter.mp hmem).2
    simp at this

/-- Appending a corner extends `firsts` at the end exactly when it is
new. -/
theorem firsts_append (c : FaceAttribute) :
    ∀ l : List FaceAttribute,
    firsts (l ++ [c]) = if c ∈ l then firsts l else firsts l ++ [c] := by
  intro l
  induction l with
  | nil => simp [firsts]
  | cons b rest ih =>
    simp only [List.cons_append, firsts, List.append_eq, ih]
    by_cases hc : c ∈ rest
    · rw [if_pos hc, if_pos (List.mem_cons_of_mem b hc)]
    · rw [if_neg hc, List.filter_append]
      by_cases hcb : c = b
      · subst hcb
        rw [if_pos (List.mem_cons_self c rest)]
        simp [List.filter]
      · rw [if_neg (show c ∉ b :: rest by simp [hcb, hc])]
        simp [List.filter, hcb]

/-- The first-seen position of an existing element is append-stable. -/
theorem posIn_append_left (a : FaceAttribute) :
    ∀ (l l2 : List FaceAttribute), a ∈ l → posIn (l ++ l2) a = posIn l a := by
  intro l
  induction l with
  | nil => intro l2 h; simp at h
  | cons b rest ih =>
    intro l2 h
    simp only [List.cons_append, posIn, List.append_eq]
    by_cases hba : b = a
    · rw [if_pos hba, if_pos hba]
    · rw [if_neg hba, if_neg hba]
      have hmem : a ∈ rest := by
        rcases List.mem_cons.mp h with h2 | h2
        · exact absurd h2.symm hba
        · exact h2
      rw [ih l2 hmem]

/-- A new element appended at the end sits at the old length. -/
theorem posIn_append_new (c : FaceAttribute) :
    ∀ l : List FaceAttribute, c ∉ l → posIn (l ++ [c]) c = l.length := by
  intro l
  induction l with
  | nil => intro h; simp [posIn]
  | cons b rest ih =>
    intro h
    simp only [List.cons_append, posIn, List.append_eq]
    rw [if_neg (fun e => h (by rw [e]; exact List.mem_cons_self c rest))]
    rw [ih (fun hm => h (List.mem_cons_of_mem b hm))]
    rfl

/-- The number of first occurrences is the number of distinct
elements. -/
theorem length_firsts (l : List FaceAttribute) : (firsts l).length = l.toFinset.card := by
  have h1 : (firsts l).toFinset = l.toFinset := by
    ext a
    simp [List.mem_toFinset, mem_firsts]
  rw [← h1]
  exact (List.toFinset_card_of_nodup (firsts_nodup l)).symm

/-- The corner fold splits over list append. -/
theorem processCorners_append (obj : Obj) :
    ∀ (l1 l2 : List FaceAttribute) (st : ConvState),
    processCorners obj st (l1 ++ l2) =
      (processCorners obj st l1).bind fun s => processCorners obj s l2 := by
  intro l1
  induction l1 with
  | nil => intro l2 st; rfl
  | cons a rest ih =>
    intro l2 st
    simp only [List.cons_append, processCorners]
    cases hpa : processAttribute obj st a with
    | none => rfl
    | some st1 =>
      simp only [Option.some_bind]
      exact ih l2 st1

/-- A triangle step is the corner fold over its three attributes. -/
theorem processTriangle_corners (obj : Obj) (st : ConvState)
    (t : FaceAttribute × FaceAttribute × FaceAttribute) :
    processTriangle obj st t = processCorners obj st [t.1, t.2.1, t.2.2] := by
  simp only [processTriangle, processCorners]
  cases h1 : processAttribute obj st t.1 with
  | none => rfl
  | some s1 =>
    simp only [Option.some_bind]
    cases h2 : processAttribute obj s1 t.2.1 with
    | none => rfl
    | some s2 =>
      simp only [Option.some_bind]
      cases h3 : processAttribute obj s2 t.2.2 with
      | none => rfl
      | some s3 => rfl

/-- A face step is the corner fold over the face's corners. -/
theorem processFace_corners (obj : Obj) (f : Face) :
    ∀ st, processFace obj st f = processCorners obj st (faceCorners obj f) := by
  suffices h : ∀ (ts : List (FaceAttribute × FaceAttribute × FaceAttribute))
      (st : ConvState),
      List.foldlM (processTriangle obj) st ts =
        processCorners obj st (ts.flatMap fun t => [t.1, t.2.1, t.2.2]) by
    intro st
    exact h _ st
  intro ts
  induction ts with
  | nil => intro st; rfl
  | cons t rest ih =>
    intro st
    rw [List.foldlM_cons, List.flatMap_cons, processCorners_append,
      ← processTriangle_corners]
    cases hpt : processTriangle obj st t with
    | none => rfl
    | some st1 =>
      simp only [Option.bind_eq_bind, Option.some_bind]
      exact ih st1

/-- The whole conversion loop is the corner fold over `allCorners`. -/
theorem fold_faces_corners (obj : Obj) :
    ∀ (fs : List Face) (st : ConvState),
    List.foldlM (processFace obj) st fs =
      processCorners obj st (fs.flatMap (faceCorners obj)) := by
  intro fs
  induction fs with
  | nil => intro st; rfl
  | cons f rest ih =>
    intro st
    rw [List.foldlM_cons, List.flatMap_cons, processCorners_append,
      ← processFace_corners]
    cases hpf : processFace obj st f with
    | none => rfl
    | some st1 =>
      simp only [Option.bind_eq_bind, Option.some_bind]
      exact ih st1

/-- One deduplication step preserves the invariant: a repeated corner
only appends its old index, a fresh corner is appended everywhere with
the next sequential index. -/
theorem dedupInv_step (obj : Obj) (st st1 : ConvState) (c : FaceAttribute)
    (seen : List FaceAttribute) (hinv : dedupInv st seen)
    (h : processAttribute obj st c = some st1) :
    dedupInv st1 (seen ++ [c]) := by
  obtain ⟨hlen, hfind, hpos, hnorm, huv, hidx⟩ := hinv
  by_cases hc : c ∈ seen
  · have hfc : assocFind st.processed c = some (posIn (firsts seen) c) := by
      rw [hfind c, if_pos hc]
    simp only [processAttribute, hfc] at h
    simp only [Option.some.injEq] at h
    subst h
    have hD : firsts (seen ++ [c]) = firsts seen := by
      rw [firsts_append]
      exact if_pos hc
    refine ⟨by simpa [hD] using hlen, ?_, by simpa [hD] using hpos,
      by simpa [hD] using hnorm, by simpa [hD] using huv, ?_⟩
    · intro a
      show assocFind st.processed a = _
      rw [hfind a, hD]
      by_cases ha : a ∈ seen
      · rw [if_pos ha, if_pos (by simp [ha])]
      · rw [if_neg ha, if_neg (by
          simp only [List.mem_append, List.mem_singleton]
          rintro (hm | rfl)
          · exact ha hm
          · exact ha hc)]
    · show st.indices ++ [posIn (firsts seen) c % 2 ^ 32] =
        (seen ++ [c]).map (fun a => posIn (firsts (seen ++ [c])) a % 2 ^ 32)
      rw [hD, List.map_append, hidx]
      simp
  · have hfc : assocFind st.processed c = none := by rw [hfind c, if_neg hc]
    simp only [processAttribute, hfc] at h
    cases hpos2 : arrIndex obj.positions c.position_index with
    | none => rw [hpos2] at h; simp at h
    | some p =>
      rw [hpos2] at h
      cases hnr : (match c.normal_index with
                   | some index => arrIndex obj.normals index
                   | none => some (⟨F.fin 0, F.fin 0, F.fin 0⟩ : Vec3)) with
      | none => rw [hnr] at h; simp at h
      | some rawNormal =>
        rw [hnr] at h
        cases huv2 : (match c.texture_coordinate_index with
                      | some index => arrIndex obj.uvs index
                      | none => some (⟨F.fin 0, F.fin 0, F.fin 0⟩ : Vec3)) with
        | none => rw [huv2] at h; simp at h
        | some uv =>
          rw [huv2] at h
          simp only [Option.some.injEq] at h
          subst h
          have hD : firsts (seen ++ [c]) = firsts seen ++ [c] := by
            rw [firsts_append]
            exact if_neg hc
          have hcD : c ∉ firsts seen := fun hm => hc ((mem_firsts c seen).mp hm)
          have hlen2 : (firsts (seen ++ [c])).length = (firsts seen).length + 1 := by
            simp [hD]
          refine ⟨?_, ?_, ?_, ?_, ?_, ?_⟩
          · show ((c, st.processed.length) :: st.processed).length = _
            simp [hlen2, hlen]
          · intro a
            show assocFind ((c, st.processed.length) :: st.processed) a = _
            by_cases hac : c = a
            · subst hac
              simp only [assocFind, if_pos rfl]
              have hmem : c ∈ seen ++ [c] := by simp
              rw [if_pos hmem, hD, posIn_append_new c (firsts seen) hcD, hlen]
              simp
            · simp only [assocFind, if_neg hac]
              rw [hfind a, hD]
              by_cases ha : a ∈ seen
              · rw [if_pos ha, if_pos (by simp [ha])]
                rw [posIn_append_left a (firsts seen) [c] ((mem_firsts a seen).mpr ha)]
              · rw [if_neg ha, if_neg (by
                  simp only [List.mem_append, List.mem_singleton]
                  rintro (hm | rfl)
                  · exact ha hm
                  · exact hac rfl)]
          · show (st.positions ++ [p.x, p.y, p.z]).length = 3 * (firsts (seen ++ [c])).length
            simp only [List.length_append, List.length_cons, List.length_nil, hpos, hlen2]
            omega
          · show (st.normals ++ [(rawNormal.normalize).x, (rawNormal.normalize).y,
              (rawNormal.normalize).z]).length = 3 * (firsts (seen ++ [c])).length
            simp only [List.length_append, List.length_cons, List.length_nil, hnorm, hlen2]
            omega
          · show (st.uvs ++ [uv.x, uv.y]).length = 2 * (firsts (seen ++ [c])).length
            simp only [List.length_append, List.length_cons, List.length_nil, huv, hlen2]
            omega
          · show st.indices ++ [st.processed.length % 2 ^ 32] =
              (seen ++ [c]).map (fun a => posIn (firsts (seen ++ [c])) a % 2 ^ 32)
            rw [List.map_append, hD]
            congr 1
            · rw [hidx]
              apply List.map_congr_left
              intro a ha
              rw [posIn_append_left a (firsts seen) [c] ((mem_firsts a seen).mpr ha)]
            · simp [posIn_append_new c (firsts seen) hcD, hlen]

/-- The corner fold preserves the deduplication invariant. -/
theorem processCorners_inv (obj : Obj) :
    ∀ (corners : List FaceAttribute) (st : ConvState) (seen : List FaceAttribute)
      (st1 : ConvState), dedupInv st seen → processCorners obj st corners = some st1 →
      dedupInv st1 (seen ++ corners) := by
  intro corners
  induction corners with
  | nil =>
    intro st seen st1 hinv h
    replace h : some st = some st1 := h
    cases h
    simpa using hinv
  | cons c rest ih =>
    intro st seen st1 hinv h
    replace h : (processAttribute obj st c).bind
        (fun s => processCorners obj s rest) = some st1 := h
    cases hpa : processAttribute obj st c with
    | none => rw [hpa] at h; simp at h
    | some st2 =>
      rw [hpa] at h
      simp only [Option.some_bind] at h
      have hstep := ih st2 (seen ++ [c]) st1 (dedupInv_step obj st st2 c seen hinv hpa) h
      simpa [List.append_assoc] using hstep

/-- Claim C3: for every converted document the output vertex count (a
third of the flat position array, matching the normal and uv arrays)
equals the number of distinct `(position, uv, normal)` index triples
over all triangulated face corners; the index list has one entry per
corner, equal corners always receive equal output indices, and a
corner already in the map only appends its existing index, growing no
output array. -/
theorem c3_dedup_guarantee :
    (∀ (obj : Obj) (md : MeshData), mesh_data_from_obj obj = some md →
      md.positions.length = 3 * (allCorners obj).toFinset.card ∧
      md.normals.length = 3 * (allCorners obj).toFinset.card ∧
      md.uvs.length = 2 * (allCorners obj).toFinset.card ∧
      md.indices.length = (allCorners obj).length ∧
      (∀ (j k : Nat) (a : FaceAttribute), (allCorners obj).get? j = some a →
        (allCorners obj).get? k = some a → md.indices.get? j = md.indices.get? k)) ∧
    (∀ (obj : Obj) (st : ConvState) (a : FaceAttribute) (idx : Nat),
      assocFind st.processed a = some idx →
      processAttribute obj st a =
        some { st with indices := st.indices ++ [idx % 2 ^ 32] }) := by
  constructor
  · intro obj md h
    simp only [mesh_data_from_obj] at h
    cases hf : List.foldlM (processFace obj) ⟨[], [], [], [], []⟩ obj.faces with
    | none => rw [hf] at h; simp at h
    | some stF =>
      rw [hf] at h
      simp only [Option.map_some', Option.some.injEq] at h
      subst h
      rw [fold_faces_corners obj obj.faces ⟨[], [], [], [], []⟩] at hf
      have hinit : dedupInv ⟨[], [], [], [], []⟩ [] := by
        refine ⟨rfl, fun a => ?_, rfl, rfl, rfl, rfl⟩
        simp [assocFind]
      have hinv := processCorners_inv obj (allCorners obj) ⟨[], [], [], [], []⟩ []
        stF hinit hf
      rw [List.nil_append] at hinv
      obtain ⟨hlen, hfind, hpos, hnorm, huv, hidx⟩ := hinv
      refine ⟨?_, ?_, ?_, ?_, ?_⟩
      · show stF.positions.length = _
        rw [hpos, length_firsts]
      · show stF.normals.length = _
        rw [hnorm, length_firsts]
      · show stF.uvs.length = _
        rw [huv, length_firsts]
      · show stF.indices.length = _
        rw [hidx, List.length_map]
      · intro j k a hj hk
        show stF.indices.get? j = stF.indices.get? k
        rw [hidx, List.get?_map, List.get?_map, hj, hk]
  · intro obj st a idx hfind
    simp only [processAttribute, hfind]

/-- Witness for C3: two identical faces of `objC3` produce three output
vertices and matching indices for the repeated corners. -/
theorem c3_witness :
    mdC3.positions.length = 3 * (allCorners objC3).toFinset.card ∧
    mdC3.indices.length = (allCorners objC3).length ∧
    mdC3.indices.get? 0 = mdC3.indices.get? 3 := by
  have h := c3_dedup_guarantee.1 objC3 mdC3 (by decide)
  exact ⟨h.1, h.2.2.2.1, h.2.2.2.2 0 3 ⟨1, none, none⟩ (by decide) (by decide)⟩

end
